import Mathlib

/-!
Shallow embedding of the pattern-based filename generation engine of
`src/utils/patterns.py` (class `PatternManager`), together with the
per-user preference counter store contract of `src/database.py`
(`get_user_preference` / `set_user_preference`).

Python strings are embedded as `List Char`.  Python's bounded loops
(`str.replace`, the underscore-collapsing `while` loop, the regex scans)
are embedded with an explicit fuel argument equal to the length of the
scanned string, which is always sufficient because every loop iteration
consumes at least one character of the scanned string; this keeps every
definition executable by the kernel.
-/

namespace Patterns

/-- Python strings are modelled as lists of characters. -/
abbrev PyStr := List Char

/-- Embed a Lean string literal as a `PyStr`. -/
def pyStr (s : String) : PyStr := s.data

/-- Fueled body of Python `s.replace(pat, rep)`: left-to-right,
non-overlapping replacement of every occurrence of `pat` by `rep`.
Any `fuel ≥ s.length` makes the recursion run to completion, since every
step consumes at least one character of `s`. -/
def replaceFuel (pat rep : PyStr) : Nat → PyStr → PyStr
  | 0, s => s
  | _ + 1, [] => []
  | fuel + 1, c :: rest =>
    if pat ≠ [] ∧ pat.isPrefixOf (c :: rest) then
      rep ++ replaceFuel pat rep fuel ((c :: rest).drop pat.length)
    else
      c :: replaceFuel pat rep fuel rest

/-- Python `s.replace(pat, rep)`. -/
def pyReplace (s pat rep : PyStr) : PyStr := replaceFuel pat rep s.length s

/-- Python `pat in s` (substring test). -/
def pyContains (pat : PyStr) : PyStr → Bool
  | [] => pat.isPrefixOf []
  | c :: rest => pat.isPrefixOf (c :: rest) || pyContains pat rest

/-- Python `filename.split('.')` — split on every dot; the result always
has at least one (possibly empty) part. -/
def splitOnDot : PyStr → List PyStr
  | [] => [[]]
  | c :: rest =>
    if c = '.' then [] :: splitOnDot rest
    else
      match splitOnDot rest with
      | [] => [[c]]
      | p :: ps => (c :: p) :: ps

/-- Python `'.'.join(parts)`. -/
def joinDot : List PyStr → PyStr
  | [] => []
  | [p] => p
  | p :: q :: ps => p ++ '.' :: joinDot (q :: ps)

/-- `PatternManager._remove_extension` (src/utils/patterns.py:239-246):
`'.'.join(filename.split('.')[:-1])` when the name contains a dot,
otherwise the name unchanged. -/
def remove_extension (filename : PyStr) : PyStr :=
  if '.' ∈ filename then joinDot (splitOnDot filename).dropLast
  else filename

/-- `PatternManager._get_extension` (src/utils/patterns.py:248-255):
`'.' + filename.split('.')[-1]` when the name contains a dot, otherwise
the empty string. -/
def get_extension (filename : PyStr) : PyStr :=
  if '.' ∈ filename then '.' :: ((splitOnDot filename).getLastD [])
  else []

theorem splitOnDot_ne_nil (s : PyStr) : splitOnDot s ≠ [] := by
  match s with
  | [] => simp [splitOnDot]
  | c :: rest =>
    by_cases h : c = '.'
    · simp [splitOnDot, h]
    · simp only [splitOnDot, if_neg h]
      cases splitOnDot rest <;> simp

theorem joinDot_splitOnDot (s : PyStr) : joinDot (splitOnDot s) = s := by
  induction s with
  | nil => simp [splitOnDot, joinDot]
  | cons c rest ih =>
    by_cases h : c = '.'
    · subst h
      simp only [splitOnDot, if_pos rfl]
      rcases hs : splitOnDot rest with _ | ⟨p, ps⟩
      · exact absurd hs (splitOnDot_ne_nil rest)
      · rw [hs] at ih
        simpa [joinDot] using ih
    · simp only [splitOnDot, if_neg h]
      rcases hs : splitOnDot rest with _ | ⟨p, ps⟩
      · exact absurd hs (splitOnDot_ne_nil rest)
      · rw [hs] at ih
        cases ps with
        | nil => simpa [joinDot] using ih
        | cons q qs => simpa [joinDot] using ih

theorem mem_dot_iff_two (s : PyStr) : '.' ∈ s ↔ 2 ≤ (splitOnDot s).length := by
  induction s with
  | nil => simp [splitOnDot]
  | cons c rest ih =>
    by_cases h : c = '.'
    · subst h
      have h1 : splitOnDot rest ≠ [] := splitOnDot_ne_nil rest
      have h2 : 0 < (splitOnDot rest).length := List.length_pos.mpr h1
      have hsp : splitOnDot ('.' :: rest) = [] :: splitOnDot rest := by
        simp [splitOnDot]
      rw [hsp]
      simp only [List.length_cons, List.mem_cons]
      constructor
      · intro _; omega
      · intro _; exact Or.inl trivial
    · have hne : ¬ ('.' = c) := fun hh => h hh.symm
      simp only [splitOnDot, if_neg h, List.mem_cons]
      rcases hs : splitOnDot rest with _ | ⟨p, ps⟩
      · exact absurd hs (splitOnDot_ne_nil rest)
      · rw [hs] at ih
        simp only [List.length_cons] at ih ⊢
        constructor
        · intro hmem
          rcases hmem with h1 | h2
          · exact absurd h1 hne
          · have := ih.mp h2; omega
        · intro hlen
          exact Or.inr (ih.mpr (by omega))

theorem joinDot_dropLast_getLastD :
    ∀ (p q : PyStr) (ps : List PyStr),
      joinDot ((p :: q :: ps).dropLast) ++ '.' :: ((p :: q :: ps).getLastD []) =
        joinDot (p :: q :: ps) := by
  intro p q ps
  induction ps generalizing p q with
  | nil => simp [joinDot, List.dropLast, List.getLastD]
  | cons r ps' ih =>
    have hstep := ih q r
    have hdl : (p :: q :: r :: ps').dropLast = p :: ((q :: r :: ps').dropLast) := rfl
    have hgl : (p :: q :: r :: ps').getLastD [] = (q :: r :: ps').getLastD [] := by
      simp [List.getLastD]
    rw [hdl, hgl]
    have hdl2 : (q :: r :: ps').dropLast = q :: ((r :: ps').dropLast) := rfl
    rw [hdl2]
    show (p ++ '.' :: joinDot (q :: (r :: ps').dropLast)) ++
        '.' :: ((q :: r :: ps').getLastD []) = p ++ '.' :: joinDot (q :: r :: ps')
    rw [List.append_assoc]
    rw [hdl2] at hstep
    simp only [List.cons_append]
    rw [hstep]

/-- Extension splitting helper: when the name has no dot the pieces are the
name itself and the empty extension. -/
theorem split_no_dot (f : PyStr) (h : '.' ∉ f) :
    remove_extension f = f ∧ get_extension f = [] := by
  constructor
  · simp [remove_extension, h]
  · simp [get_extension, h]

/-- C10: extension splitting is an exact decomposition — for every filename
`f`, `_remove_extension(f) ++ _get_extension(f) = f`; when `f` has no dot
the pieces are `f` and the empty string, and the edge cases `".bashrc"`
and `"name."` decompose as `("", ".bashrc")` and `("name", ".")`. -/
theorem extension_split_exact :
    (∀ f : PyStr, remove_extension f ++ get_extension f = f) ∧
    (∀ f : PyStr, '.' ∉ f → remove_extension f = f ∧ get_extension f = []) ∧
    remove_extension (pyStr ".bashrc") = [] ∧
    get_extension (pyStr ".bashrc") = pyStr ".bashrc" ∧
    remove_extension (pyStr "name.") = pyStr "name" ∧
    get_extension (pyStr "name.") = pyStr "." := by
  refine ⟨?_, fun f h => split_no_dot f h, by decide, by decide, by decide, by decide⟩
  intro f
  by_cases h : '.' ∈ f
  · have h2 := (mem_dot_iff_two f).mp h
    rcases hs : splitOnDot f with _ | ⟨p, ps⟩
    · exact absurd hs (splitOnDot_ne_nil f)
    · rcases ps with _ | ⟨q, qs⟩
      · rw [hs] at h2; simp at h2
      · have hj := joinDot_dropLast_getLastD p q qs
        rw [← hs] at hj
        rw [remove_extension, get_extension, if_pos h, if_pos h, hj,
          joinDot_splitOnDot]
  · rcases split_no_dot f h with ⟨h1, h2⟩
    rw [h1, h2, List.append_nil]

/-- Witness for C10 at the concrete names `"movie.mp4"` and `"file"`. -/
theorem extension_split_exact_witness :
    remove_extension (pyStr "movie.mp4") ++ get_extension (pyStr "movie.mp4") =
      pyStr "movie.mp4" ∧
    '.' ∉ pyStr "file" ∧
    (remove_extension (pyStr "file") = pyStr "file" ∧
      get_extension (pyStr "file") = []) :=
  ⟨extension_split_exact.1 (pyStr "movie.mp4"), by decide,
    extension_split_exact.2.1 (pyStr "file") (by decide)⟩

/-- The characters `_clean_filename` replaces (src/utils/patterns.py:261). -/
def invalid_chars : List Char := ['/', '\\', ':', '*', '?', '"', '<', '>', '|']

/-- Python `s.replace(a, b)` for single characters is a character map. -/
def replaceChar (a b : Char) (s : PyStr) : PyStr :=
  s.map (fun c => if c = a then b else c)

/-- Lines 264-265 of src/utils/patterns.py: replace each invalid character
by an underscore, one `str.replace` pass per character. -/
def removeInvalid (s : PyStr) : PyStr :=
  invalid_chars.foldl (fun acc ch => replaceChar ch '_' acc) s

/-- Fueled body of the `while '__' in cleaned` loop (lines 268-269).
Each executed round strictly shrinks the string, so `s.length` rounds of
fuel always reach the loop's exit condition. -/
def collapseFuel : Nat → PyStr → PyStr
  | 0, s => s
  | fuel + 1, s =>
    if pyContains ['_', '_'] s then
      collapseFuel fuel (pyReplace s ['_', '_'] ['_'])
    else s

/-- The underscore-collapsing `while` loop of `_clean_filename`. -/
def collapseUnderscores (s : PyStr) : PyStr := collapseFuel s.length s

/-- The underscore test used by Python `s.strip('_')`. -/
def isUnder (c : Char) : Bool := c == '_'

/-- Python `s.strip('_')` (line 272): drop leading and trailing
underscores. -/
def stripUnderscore (s : PyStr) : PyStr :=
  ((s.dropWhile isUnder).reverse.dropWhile isUnder).reverse

/-- `PatternManager._clean_filename` (src/utils/patterns.py:257-282):
replace invalid characters, collapse runs of underscores, strip edge
underscores, and fall back to `"renamed_file"` when nothing is left. -/
def clean_filename (filename : PyStr) : PyStr :=
  let cleaned := removeInvalid filename
  let collapsed := collapseUnderscores cleaned
  let stripped := stripUnderscore collapsed
  if stripped = [] then pyStr "renamed_file" else stripped

theorem isPrefixOf_iff (l₁ l₂ : PyStr) :
    l₁.isPrefixOf l₂ = true ↔ ∃ t, l₁ ++ t = l₂ := by
  induction l₁ generalizing l₂ with
  | nil => simp [List.isPrefixOf]
  | cons a l ih =>
    cases l₂ with
    | nil => simp [List.isPrefixOf]
    | cons b m =>
      simp only [List.isPrefixOf, Bool.and_eq_true, beq_iff_eq, ih,
        List.cons_append, List.cons.injEq]
      constructor
      · rintro ⟨rfl, t, rfl⟩
        exact ⟨t, rfl, rfl⟩
      · rintro ⟨t, rfl, rfl⟩
        exact ⟨rfl, t, rfl⟩

theorem pyContains_iff (pat s : PyStr) :
    pyContains pat s = true ↔ ∃ a b, s = a ++ pat ++ b := by
  induction s with
  | nil =>
    simp only [pyContains, isPrefixOf_iff]
    constructor
    · rintro ⟨t, ht⟩
      rcases List.append_eq_nil.mp ht with ⟨rfl, rfl⟩
      exact ⟨[], [], rfl⟩
    · rintro ⟨a, b, hab⟩
      rcases List.append_eq_nil.mp hab.symm with ⟨h1, rfl⟩
      rcases List.append_eq_nil.mp h1 with ⟨rfl, rfl⟩
      exact ⟨[], rfl⟩
  | cons c rest ih =>
    simp only [pyContains, Bool.or_eq_true, isPrefixOf_iff, ih]
    constructor
    · rintro (⟨t, ht⟩ | ⟨a, b, rfl⟩)
      · exact ⟨[], t, by simp [ht]⟩
      · exact ⟨c :: a, b, rfl⟩
    · rintro ⟨a, b, hab⟩
      cases a with
      | nil => exact Or.inl ⟨b, by simpa using hab.symm⟩
      | cons a₀ a' =>
        simp only [List.cons_append, List.cons.injEq] at hab
        exact Or.inr ⟨a', b, hab.2⟩

theorem mem_replaceFuel (pat rep : PyStr) (fuel : Nat) (s : PyStr) (c : Char)
    (h : c ∈ replaceFuel pat rep fuel s) : c ∈ s ∨ c ∈ rep := by
  induction fuel generalizing s with
  | zero => exact Or.inl h
  | succ fuel ih =>
    cases s with
    | nil => simp [replaceFuel] at h
    | cons d rest =>
      by_cases hc : pat ≠ [] ∧ pat.isPrefixOf (d :: rest)
      · simp only [replaceFuel, if_pos hc] at h
        rcases List.mem_append.mp h with h1 | h2
        · exact Or.inr h1
        · rcases ih _ h2 with h3 | h4
          · exact Or.inl ((List.drop_sublist _ _).subset h3)
          · exact Or.inr h4
      · simp only [replaceFuel, if_neg hc] at h
        rcases List.mem_cons.mp h with h1 | h2
        · exact Or.inl (h1 ▸ List.mem_cons_self _ _)
        · rcases ih _ h2 with h3 | h4
          · exact Or.inl (List.mem_cons_of_mem _ h3)
          · exact Or.inr h4

theorem replaceFuel_dd_length_le (fuel : Nat) (s : PyStr) :
    (replaceFuel ['_', '_'] ['_'] fuel s).length ≤ s.length := by
  induction fuel generalizing s with
  | zero => exact Nat.le_refl _
  | succ fuel ih =>
    cases s with
    | nil => simp [replaceFuel]
    | cons d rest =>
      by_cases hc : (['_', '_'] : PyStr) ≠ [] ∧
          (['_', '_'] : PyStr).isPrefixOf (d :: rest)
      · simp only [replaceFuel, if_pos hc]
        rcases (isPrefixOf_iff _ _).mp hc.2 with ⟨t, ht⟩
        have hrest : '_' :: t = rest := by
          simpa using congrArg List.tail ht
        subst hrest
        have hdrop : (d :: '_' :: t).drop (['_', '_'] : PyStr).length = t := rfl
        rw [hdrop]
        have hlen := ih t
        simp only [List.length_append, List.length_cons, List.length_nil] at *
        omega
      · simp only [replaceFuel, if_neg hc, List.length_cons]
        exact Nat.succ_le_succ (ih rest)

theorem replaceFuel_dd_length_lt (fuel : Nat) (s : PyStr)
    (hf : s.length ≤ fuel) (h : pyContains ['_', '_'] s = true) :
    (replaceFuel ['_', '_'] ['_'] fuel s).length < s.length := by
  induction fuel generalizing s with
  | zero =>
    have : s = [] := List.length_eq_zero.mp (Nat.le_zero.mp hf)
    subst this
    simp [pyContains, List.isPrefixOf] at h
  | succ fuel ih =>
    cases s with
    | nil => simp [pyContains, List.isPrefixOf] at h
    | cons d rest =>
      by_cases hc : (['_', '_'] : PyStr) ≠ [] ∧
          (['_', '_'] : PyStr).isPrefixOf (d :: rest)
      · simp only [replaceFuel, if_pos hc]
        rcases (isPrefixOf_iff _ _).mp hc.2 with ⟨t, ht⟩
        have hrest : '_' :: t = rest := by
          simpa using congrArg List.tail ht
        subst hrest
        have hdrop : (d :: '_' :: t).drop (['_', '_'] : PyStr).length = t := rfl
        rw [hdrop]
        have hle := replaceFuel_dd_length_le fuel t
        simp only [List.length_append, List.length_cons, List.length_nil] at *
        omega
      · have hcont : pyContains ['_', '_'] rest = true := by
          simp only [pyContains, Bool.or_eq_true] at h
          rcases h with h1 | h2
          · exact absurd ⟨by simp, h1⟩ hc
          · exact h2
        simp only [replaceFuel, if_neg hc, List.length_cons]
        have hrest : rest.length ≤ fuel := by
          simp only [List.length_cons] at hf
          omega
        exact Nat.succ_lt_succ (ih rest hrest hcont)

theorem collapseFuel_no_dd (fuel : Nat) (s : PyStr) (hf : s.length ≤ fuel) :
    pyContains ['_', '_'] (collapseFuel fuel s) = false := by
  induction fuel generalizing s with
  | zero =>
    have : s = [] := List.length_eq_zero.mp (Nat.le_zero.mp hf)
    subst this
    simp [collapseFuel, pyContains, List.isPrefixOf]
  | succ fuel ih =>
    by_cases hdd : pyContains ['_', '_'] s = true
    · simp only [collapseFuel, if_pos hdd]
      have hlt : (pyReplace s ['_', '_'] ['_']).length < s.length := by
        simpa [pyReplace] using
          replaceFuel_dd_length_lt s.length s (Nat.le_refl _) hdd
      exact ih _ (by omega)
    · simp only [collapseFuel, if_neg hdd]
      exact Bool.eq_false_iff.mpr hdd

theorem collapseUnderscores_no_dd (s : PyStr) :
    pyContains ['_', '_'] (collapseUnderscores s) = false :=
  collapseFuel_no_dd s.length s (Nat.le_refl _)

theorem mem_collapseFuel (fuel : Nat) (s : PyStr) (c : Char)
    (h : c ∈ collapseFuel fuel s) : c ∈ s ∨ c = '_' := by
  induction fuel generalizing s with
  | zero => exact Or.inl h
  | succ fuel ih =>
    by_cases hdd : pyContains ['_', '_'] s = true
    · simp only [collapseFuel, if_pos hdd] at h
      rcases ih _ h with h1 | h2
      · rcases mem_replaceFuel _ _ _ _ _ h1 with h3 | h4
        · exact Or.inl h3
        · simp only [List.mem_singleton] at h4
          exact Or.inr h4
      · exact Or.inr h2
    · simp only [collapseFuel, if_neg hdd] at h
      exact Or.inl h

theorem pyContains_false_mid (pat a m b : PyStr)
    (h : pyContains pat (a ++ m ++ b) = false) : pyContains pat m = false := by
  cases hcm : pyContains pat m with
  | false => rfl
  | true =>
    rcases (pyContains_iff pat m).mp hcm with ⟨x, y, rfl⟩
    have htrue : pyContains pat (a ++ (x ++ pat ++ y) ++ b) = true :=
      (pyContains_iff _ _).mpr ⟨a ++ x, y ++ b, by simp⟩
    rw [h] at htrue
    exact Bool.noConfusion htrue

theorem dropWhile_head_false (p : Char → Bool) (l : PyStr) (c : Char)
    (m : PyStr) (h : l.dropWhile p = c :: m) : p c = false := by
  induction l with
  | nil => simp [List.dropWhile] at h
  | cons d rest ih =>
    rw [List.dropWhile_cons] at h
    by_cases hd : p d
    · rw [if_pos hd] at h
      exact ih h
    · rw [if_neg hd] at h
      rcases h with ⟨rfl, rfl⟩ | _
      · exact Bool.eq_false_iff.mpr hd
    
theorem dropWhile_idem (p : Char → Bool) (l : PyStr) :
    (l.dropWhile p).dropWhile p = l.dropWhile p := by
  cases h : l.dropWhile p with
  | nil => simp
  | cons c m =>
    have hc := dropWhile_head_false p l c m h
    simp [List.dropWhile_cons, hc]

theorem strip_decomp_right (s : PyStr) :
    s.dropWhile isUnder = stripUnderscore s ++
      ((s.dropWhile isUnder).reverse.takeWhile isUnder).reverse := by
  have h := List.takeWhile_append_dropWhile (p := isUnder)
    (l := (s.dropWhile isUnder).reverse)
  have h2 := congrArg List.reverse h
  rw [List.reverse_append, List.reverse_reverse] at h2
  exact h2.symm

theorem strip_decomp (s : PyStr) : ∃ a b, s = a ++ stripUnderscore s ++ b := by
  refine ⟨s.takeWhile isUnder,
    ((s.dropWhile isUnder).reverse.takeWhile isUnder).reverse, ?_⟩
  rw [List.append_assoc, ← strip_decomp_right s]
  exact (List.takeWhile_append_dropWhile (p := isUnder) (l := s)).symm

theorem stripUnderscore_idem (s : PyStr) :
    stripUnderscore (stripUnderscore s) = stripUnderscore s := by
  have hrrev : (stripUnderscore s).reverse =
      (s.dropWhile isUnder).reverse.dropWhile isUnder := by
    rw [stripUnderscore, List.reverse_reverse]
  have hstep1 : (stripUnderscore s).dropWhile isUnder = stripUnderscore s := by
    cases hcr : stripUnderscore s with
    | nil => simp
    | cons c r' =>
      have hr := strip_decomp_right s
      rw [hcr] at hr
      have hc : isUnder c = false :=
        dropWhile_head_false isUnder s c _ (by simpa using hr)
      rw [List.dropWhile_cons, if_neg (by simp [hc])]
  show (((stripUnderscore s).dropWhile isUnder).reverse.dropWhile
      isUnder).reverse = stripUnderscore s
  rw [hstep1, hrrev, dropWhile_idem, ← hrrev, List.reverse_reverse]

theorem pyContains_strip_false (pat s : PyStr)
    (h : pyContains pat s = false) :
    pyContains pat (stripUnderscore s) = false := by
  rcases strip_decomp s with ⟨a, b, hs⟩
  exact pyContains_false_mid pat a _ b (hs ▸ h)

theorem mem_strip (s : PyStr) (c : Char) (h : c ∈ stripUnderscore s) :
    c ∈ s := by
  rcases strip_decomp s with ⟨a, b, hs⟩
  rw [hs]
  simp [h]

/-- The per-character effect of the invalid-character replacement loop. -/
def cleanChar (c : Char) : Char := if c ∈ invalid_chars then '_' else c

theorem removeInvalid_cons (c : Char) (s : PyStr) :
    removeInvalid (c :: s) = cleanChar c :: removeInvalid s := by
  simp only [removeInvalid, invalid_chars, List.foldl_cons, List.foldl_nil]
  simp only [replaceChar, List.map_cons]
  refine congrArg₂ List.cons ?_ rfl
  by_cases h : c ∈ invalid_chars
  · simp only [invalid_chars, List.mem_cons, List.not_mem_nil, or_false] at h
    rcases h with rfl | rfl | rfl | rfl | rfl | rfl | rfl | rfl | rfl <;> rfl
  · have h' := h
    simp only [invalid_chars, List.mem_cons, List.not_mem_nil, or_false] at h
    push_neg at h
    obtain ⟨h1, h2, h3, h4, h5, h6, h7, h8, h9⟩ := h
    simp only [cleanChar, if_neg h']
    rw [if_neg h1, if_neg h2, if_neg h3, if_neg h4, if_neg h5, if_neg h6,
      if_neg h7, if_neg h8, if_neg h9]

theorem removeInvalid_eq_map (s : PyStr) : removeInvalid s = s.map cleanChar := by
  induction s with
  | nil => rfl
  | cons c rest ih => rw [removeInvalid_cons, ih, List.map_cons]

theorem removeInvalid_id (s : PyStr) (h : ∀ c ∈ s, c ∉ invalid_chars) :
    removeInvalid s = s := by
  rw [removeInvalid_eq_map]
  conv_rhs => rw [← List.map_id s]
  refine List.map_congr_left ?_
  intro c hc
  simp [cleanChar, h c hc]

theorem mem_removeInvalid (s : PyStr) (c : Char) (h : c ∈ removeInvalid s) :
    c ∉ invalid_chars := by
  rw [removeInvalid_eq_map] at h
  rcases List.mem_map.mp h with ⟨d, _, rfl⟩
  by_cases hd : d ∈ invalid_chars
  · simp only [cleanChar, if_pos hd]
    decide
  · simp only [cleanChar, if_neg hd]
    exact hd

theorem collapse_of_no_dd (s : PyStr) (h : pyContains ['_', '_'] s = false) :
    collapseUnderscores s = s := by
  rw [collapseUnderscores]
  cases s.length with
  | zero => rfl
  | succ n => simp [collapseFuel, h]

theorem clean_filename_no_invalid (s : PyStr) :
    ∀ c ∈ clean_filename s, c ∉ invalid_chars := by
  intro c hc
  by_cases hempty :
      stripUnderscore (collapseUnderscores (removeInvalid s)) = []
  · have hrc : clean_filename s = pyStr "renamed_file" := by
      show (if stripUnderscore (collapseUnderscores (removeInvalid s)) = []
        then pyStr "renamed_file"
        else stripUnderscore (collapseUnderscores (removeInvalid s))) =
          pyStr "renamed_file"
      rw [if_pos hempty]
    rw [hrc] at hc
    revert hc
    revert c
    decide
  · have hrc : clean_filename s =
        stripUnderscore (collapseUnderscores (removeInvalid s)) := by
      show (if stripUnderscore (collapseUnderscores (removeInvalid s)) = []
        then pyStr "renamed_file"
        else stripUnderscore (collapseUnderscores (removeInvalid s))) = _
      rw [if_neg hempty]
    rw [hrc] at hc
    have hc2 := mem_strip _ _ hc
    rcases mem_collapseFuel _ _ _ hc2 with h1 | h2
    · exact mem_removeInvalid s c h1
    · subst h2; decide

theorem clean_filename_no_dd (s : PyStr) :
    pyContains ['_', '_'] (clean_filename s) = false := by
  by_cases hempty :
      stripUnderscore (collapseUnderscores (removeInvalid s)) = []
  · have hrc : clean_filename s = pyStr "renamed_file" := by
      show (if stripUnderscore (collapseUnderscores (removeInvalid s)) = []
        then pyStr "renamed_file"
        else stripUnderscore (collapseUnderscores (removeInvalid s))) = _
      rw [if_pos hempty]
    rw [hrc]; decide
  · have hrc : clean_filename s =
        stripUnderscore (collapseUnderscores (removeInvalid s)) := by
      show (if stripUnderscore (collapseUnderscores (removeInvalid s)) = []
        then pyStr "renamed_file"
        else stripUnderscore (collapseUnderscores (removeInvalid s))) = _
      rw [if_neg hempty]
    rw [hrc]
    exact pyContains_strip_false _ _ (collapseUnderscores_no_dd _)

theorem clean_filename_ne_nil (s : PyStr) : clean_filename s ≠ [] := by
  by_cases hempty :
      stripUnderscore (collapseUnderscores (removeInvalid s)) = []
  · have hrc : clean_filename s = pyStr "renamed_file" := by
      show (if stripUnderscore (collapseUnderscores (removeInvalid s)) = []
        then pyStr "renamed_file"
        else stripUnderscore (collapseUnderscores (removeInvalid s))) = _
      rw [if_pos hempty]
    rw [hrc]; decide
  · have hrc : clean_filename s =
        stripUnderscore (collapseUnderscores (removeInvalid s)) := by
      show (if stripUnderscore (collapseUnderscores (removeInvalid s)) = []
        then pyStr "renamed_file"
        else stripUnderscore (collapseUnderscores (removeInvalid s))) = _
      rw [if_neg hempty]
    rw [hrc]; exact hempty

theorem clean_filename_stripped (s : PyStr) :
    stripUnderscore (clean_filename s) = clean_filename s := by
  by_cases hempty :
      stripUnderscore (collapseUnderscores (removeInvalid s)) = []
  · have hrc : clean_filename s = pyStr "renamed_file" := by
      show (if stripUnderscore (collapseUnderscores (removeInvalid s)) = []
        then pyStr "renamed_file"
        else stripUnderscore (collapseUnderscores (removeInvalid s))) = _
      rw [if_pos hempty]
    rw [hrc]; decide
  · have hrc : clean_filename s =
        stripUnderscore (collapseUnderscores (removeInvalid s)) := by
      show (if stripUnderscore (collapseUnderscores (removeInvalid s)) = []
        then pyStr "renamed_file"
        else stripUnderscore (collapseUnderscores (removeInvalid s))) = _
      rw [if_neg hempty]
    rw [hrc]
    exact stripUnderscore_idem _

/-- C8: the filename sanitizer `_clean_filename` is idempotent —
`sanitize(sanitize(x)) = sanitize(x)` for every string `x` — and the
concrete example `sanitize("a//b::c") = "a_b_c"` holds. -/
theorem sanitize_idempotent :
    (∀ x : PyStr, clean_filename (clean_filename x) = clean_filename x) ∧
    clean_filename (pyStr "a//b::c") = pyStr "a_b_c" := by
  refine ⟨?_, by decide⟩
  intro x
  have h1 : removeInvalid (clean_filename x) = clean_filename x :=
    removeInvalid_id _ (clean_filename_no_invalid x)
  have h2 : collapseUnderscores (clean_filename x) = clean_filename x :=
    collapse_of_no_dd _ (clean_filename_no_dd x)
  have h3 : stripUnderscore (clean_filename x) = clean_filename x :=
    clean_filename_stripped x
  have h4 : clean_filename x ≠ [] := clean_filename_ne_nil x
  show (if stripUnderscore (collapseUnderscores
        (removeInvalid (clean_filename x))) = []
      then pyStr "renamed_file"
      else stripUnderscore (collapseUnderscores
        (removeInvalid (clean_filename x)))) = clean_filename x
  rw [h1, h2, h3, if_neg h4]

/-- Round-half-even of the exact fraction `num/den` (`den > 0`) to an
integer.  `_format_size` manipulates Python floats; the embedding keeps
the running value as the exact fraction `num/1024^k`, which agrees with
binary floating point on all sizes below `2^53` except half-ulp ties of
the decimal formatting itself. -/
def roundHalfEvenFrac (num den : Nat) : Nat :=
  let q := num / den
  let r := num % den
  if 2 * r < den then q
  else if den < 2 * r then q + 1
  else if q % 2 = 0 then q else q + 1

/-- Python `f"{x:.0f}"` for the nonnegative fraction `num/den`. -/
def fmt0F (num den : Nat) : PyStr :=
  Nat.toDigits 10 (roundHalfEvenFrac num den)

/-- Python `f"{x:.1f}"` for the nonnegative fraction `num/den`. -/
def fmt1F (num den : Nat) : PyStr :=
  Nat.toDigits 10 (roundHalfEvenFrac (10 * num) den / 10) ++
    '.' :: Nat.toDigits 10 (roundHalfEvenFrac (10 * num) den % 10)

/-- The unit loop of `_format_size` (src/utils/patterns.py:289-294): after
`k` divisions by `1024.0` the running value is exactly `num/1024^k`; `den`
carries `1024^k`. -/
def formatSizeGo : Nat → Nat → List PyStr → PyStr
  | num, den, [] => fmt1F num den ++ pyStr "TB"
  | num, den, u :: us =>
    if num < 1024 * den then fmt0F num den ++ u
    else formatSizeGo num (1024 * den) us

/-- `PatternManager._format_size` (src/utils/patterns.py:284-294). -/
def format_size (size_bytes : Nat) : PyStr :=
  if size_bytes = 0 then pyStr "0B"
  else formatSizeGo size_bytes 1
    [pyStr "B", pyStr "KB", pyStr "MB", pyStr "GB"]

/-- The `size_mb` context value `f"{size/(1024*1024):.1f}"`
(src/utils/patterns.py:97). -/
def size_mb (size_bytes : Nat) : PyStr := fmt1F size_bytes (1024 * 1024)

/-- C7 counterexample: `_format_size` scales past GB into a TB tier
(`1024^4` bytes format as `"1.0TB"`, not `"1024.0GB"`), and the B..GB
tiers use zero decimal places (`2` bytes format as `"2B"`, not `"2.0B"`),
so the size string is neither limited to B/KB/MB/GB nor one-decimal. -/
theorem format_size_tb_counterexample :
    format_size 1099511627776 = pyStr "1.0TB" ∧
    format_size 1099511627776 ≠ pyStr "1024.0GB" ∧
    format_size 2 = pyStr "2B" ∧
    format_size 2 ≠ pyStr "2.0B" := by
  refine ⟨by decide, by decide, by decide, by decide⟩

/-- C7 amended: `{size}` is formatted by repeated division by 1024 with
units chosen by binary magnitude — B, KB, MB, GB at zero decimal places
(round-half-even), falling through to TB at one decimal place for sizes of
at least `1024^4` bytes — and `{size_mb}` is the size divided by `1024^2`
rendered with one decimal place. -/
theorem format_size_amended (n : Nat) :
    (n = 0 → format_size n = pyStr "0B") ∧
    (0 < n → n < 1024 → format_size n = fmt0F n 1 ++ pyStr "B") ∧
    (1024 ≤ n → n < 1024 ^ 2 →
      format_size n = fmt0F n 1024 ++ pyStr "KB") ∧
    (1024 ^ 2 ≤ n → n < 1024 ^ 3 →
      format_size n = fmt0F n (1024 ^ 2) ++ pyStr "MB") ∧
    (1024 ^ 3 ≤ n → n < 1024 ^ 4 →
      format_size n = fmt0F n (1024 ^ 3) ++ pyStr "GB") ∧
    (1024 ^ 4 ≤ n → format_size n = fmt1F n (1024 ^ 4) ++ pyStr "TB") ∧
    size_mb n = fmt1F n (1024 ^ 2) := by
  have e2 : (1024 : Nat) ^ 2 = 1048576 := by norm_num
  have e3 : (1024 : Nat) ^ 3 = 1073741824 := by norm_num
  have e4 : (1024 : Nat) ^ 4 = 1099511627776 := by norm_num
  refine ⟨?_, ?_, ?_, ?_, ?_, ?_, ?_⟩
  · intro h; subst h; rfl
  · intro h0 h1
    rw [format_size, if_neg (by omega)]
    simp only [formatSizeGo]
    rw [if_pos (by omega)]
  · intro hlo hhi
    rw [e2] at hhi
    rw [format_size, if_neg (by omega)]
    simp only [formatSizeGo]
    rw [if_neg (by omega), if_pos (by omega)]
  · intro hlo hhi
    rw [e2] at hlo; rw [e3] at hhi
    rw [format_size, if_neg (by omega)]
    simp only [formatSizeGo]
    rw [if_neg (by omega), if_neg (by omega), if_pos (by omega), e2]
  · intro hlo hhi
    rw [e3] at hlo; rw [e4] at hhi
    rw [format_size, if_neg (by omega)]
    simp only [formatSizeGo]
    rw [if_neg (by omega), if_neg (by omega), if_neg (by omega),
      if_pos (by omega), e3]
  · intro hlo
    rw [e4] at hlo
    rw [format_size, if_neg (by omega)]
    simp only [formatSizeGo]
    rw [if_neg (by omega), if_neg (by omega), if_neg (by omega),
      if_neg (by omega), e4]
  · rw [size_mb, e2]

/-- Witness for C7 at `2 = 2` bytes and `1024^4` bytes. -/
theorem format_size_amended_witness :
    (0 < 2 ∧ 2 < 1024 ∧ format_size 2 = fmt0F 2 1 ++ pyStr "B") ∧
    (1024 ^ 4 ≤ 1099511627776 ∧
      format_size 1099511627776 =
        fmt1F 1099511627776 (1024 ^ 4) ++ pyStr "TB") :=
  ⟨⟨by decide, by decide,
      (format_size_amended 2).2.1 (by decide) (by decide)⟩,
    ⟨by norm_num,
      (format_size_amended 1099511627776).2.2.2.2.2.1 (by norm_num)⟩⟩

/-- The whitespace set of Python's default `str.strip()` — CPython's
`Py_UNICODE_ISSPACE`: the ASCII whitespace controls and space, the C1
controls FS/GS/RS/US, NEL, NBSP, OGHAM SPACE MARK, the Unicode space
separators U+2000..U+200A, LINE/PARAGRAPH SEPARATOR, NARROW NO-BREAK
SPACE, MEDIUM MATHEMATICAL SPACE, and IDEOGRAPHIC SPACE. -/
def isSpaceChar (c : Char) : Bool :=
  decide ((9 ≤ c.toNat ∧ c.toNat ≤ 13) ∨ (28 ≤ c.toNat ∧ c.toNat ≤ 32) ∨
    c.toNat = 133 ∨ c.toNat = 160 ∨ c.toNat = 5760 ∨
    (8192 ≤ c.toNat ∧ c.toNat ≤ 8202) ∨ c.toNat = 8232 ∨
    c.toNat = 8233 ∨ c.toNat = 8239 ∨ c.toNat = 8287 ∨
    c.toNat = 12288)

/-- Scan to the first closing brace: `some (before, after)` splits off the
text before the first closing brace and the remainder after it. -/
def splitAtBrace : PyStr → Option (PyStr × PyStr)
  | [] => none
  | c :: rest =>
    if c = '\x7d' then some ([], rest)
    else
      match splitAtBrace rest with
      | some (a, b) => some (c :: a, b)
      | none => none

/-- The variable scan `re.findall` over `\x7b([^\x7d]+)\x7d` used by
`validate_pattern` (src/utils/patterns.py:310): each match is a brace pair
whose nonempty body contains no closing brace; scanning is left to right
and non-overlapping.  Fuel `s.length` suffices since every step consumes
at least one character. -/
def findVarsFuel : Nat → PyStr → List PyStr
  | 0, _ => []
  | _ + 1, [] => []
  | fuel + 1, c :: rest =>
    if c = '\x7b' then
      match splitAtBrace rest with
      | some (v, rem) =>
        if v = [] then findVarsFuel fuel rest else v :: findVarsFuel fuel rem
      | none => findVarsFuel fuel rest
    else findVarsFuel fuel rest

/-- All `(...)` variable bodies found in a pattern. -/
def findVars (s : PyStr) : List PyStr := findVarsFuel s.length s

/-- The static variable vocabulary: the keys of `self.variables`
(src/utils/patterns.py:21-48). -/
def knownVariables : List PyStr :=
  [pyStr "counter", pyStr "counter:02d", pyStr "counter:03d", pyStr "date",
   pyStr "time", pyStr "datetime", pyStr "year", pyStr "month",
   pyStr "day", pyStr "hour", pyStr "minute", pyStr "second",
   pyStr "original", pyStr "original_full", pyStr "ext", pyStr "user",
   pyStr "username", pyStr "user_id", pyStr "size", pyStr "size_mb",
   pyStr "type", pyStr "random", pyStr "random:4", pyStr "random:8",
   pyStr "uuid", pyStr "timestamp"]

/-- Python `var.split(':')[0]` — the variable name with any format
specifier removed. -/
def baseVar (v : PyStr) : PyStr := v.takeWhile (fun c => c != ':')

/-- The validation loop over found variables (src/utils/patterns.py:313-319):
returns the first variable whose base name is neither in the vocabulary
nor `counter`/`random`, or `none` when all pass. -/
def checkVars : List PyStr → Option PyStr
  | [] => none
  | v :: rest =>
    if knownVariables.contains (baseVar v) then checkVars rest
    else if baseVar v = pyStr "counter" || baseVar v = pyStr "random" then
      checkVars rest
    else some v

/-- `PatternManager.validate_pattern` (src/utils/patterns.py:296-330),
returning Python's `(ok, message)` pair.  The source method reads no
mutable state, so the embedding is a pure function — the no-side-effects
part of C5. -/
def validate_pattern (pattern : PyStr) : Bool × PyStr :=
  if pattern = [] || pattern.all isSpaceChar then
    (false, pyStr "Pattern cannot be empty")
  else if pattern.count '\x7b' ≠ pattern.count '\x7d' then
    (false, pyStr "Unmatched braces in pattern")
  else
    match checkVars (findVars pattern) with
    | some v =>
      (false, pyStr "Unknown variable: " ++ '\x7b' :: v ++ ['\x7d'])
    | none =>
      if clean_filename pattern = [] then
        (false, pyStr "Pattern would result in invalid filename")
      else (true, pyStr "Valid pattern")

/-- C5: `validate_pattern` accepts the counter/original/ext pattern,
rejects an unknown variable naming it in the message, rejects an
unbalanced brace, rejects the empty pattern, and rejects EVERY
all-whitespace pattern (whitespace in the full `str.strip()` sense,
Unicode spaces included) with the empty-pattern message; the embedding
is a pure function of the pattern, matching the method's lack of side
effects. -/
theorem validate_pattern_examples :
    validate_pattern
        (pyStr "\x7bcounter\x7d_\x7boriginal\x7d.\x7bext\x7d") =
      (true, pyStr "Valid pattern") ∧
    validate_pattern (pyStr "\x7bnope\x7d") =
      (false, pyStr "Unknown variable: \x7bnope\x7d") ∧
    validate_pattern (pyStr "\x7bfoo") =
      (false, pyStr "Unmatched braces in pattern") ∧
    validate_pattern (pyStr "") = (false, pyStr "Pattern cannot be empty") ∧
    (∀ p : PyStr, p.all isSpaceChar = true →
      validate_pattern p = (false, pyStr "Pattern cannot be empty")) := by
  refine ⟨by decide, by decide, by decide, by decide, ?_⟩
  intro p h
  simp [validate_pattern, h]

/-- Witness for C5's all-whitespace clause, at an ASCII instance and at a
Unicode one (NBSP and EM SPACE, which Python `str.strip()` removes). -/
theorem validate_pattern_examples_witness :
    ((pyStr " \t ").all isSpaceChar = true ∧
      validate_pattern (pyStr " \t ") =
        (false, pyStr "Pattern cannot be empty")) ∧
    ((pyStr "\u00A0\u2003").all isSpaceChar = true ∧
      validate_pattern (pyStr "\u00A0\u2003") =
        (false, pyStr "Pattern cannot be empty")) :=
  ⟨⟨by decide, validate_pattern_examples.2.2.2.2 (pyStr " \t ") (by decide)⟩,
    ⟨by decide, validate_pattern_examples.2.2.2.2 (pyStr "\u00A0\u2003")
      (by decide)⟩⟩

/-- C9 (code bug in the source): the sanitized-pattern emptiness check of
`validate_pattern` can never fire, because `_clean_filename` returns the
fallback `"renamed_file"` instead of an empty string; a pattern of pure
cleaned-away filler such as `"___"` or `"//"` is therefore accepted as
valid, while the specification requires it to be rejected. -/
theorem validate_filler_accepted :
    (∀ s : PyStr, clean_filename s ≠ []) ∧
    validate_pattern (pyStr "___") = (true, pyStr "Valid pattern") ∧
    validate_pattern (pyStr "//") = (true, pyStr "Valid pattern") := by
  refine ⟨clean_filename_ne_nil, by decide, by decide⟩

/-- A counter key.  The source keys the in-memory cache by
`f"{user_id}_{hash(pattern)}"` and the durable store by the user id plus
`f"counter_{hash(pattern)}"`; within one Python process `hash` is a fixed
function of the pattern text, so both keys are determined by the pair
`(user_id, pattern text)`, which the embedding uses directly (no claim
relies on hash collisions between distinct patterns). -/
abbrev CtrKey := Nat × PyStr

/-- Association-list lookup (a Python dict read). -/
def alookup (k : CtrKey) : List (CtrKey × Nat) → Option Nat
  | [] => none
  | (k', v) :: rest => if k' = k then some v else alookup k rest

/-- Association-list insert-or-update (a Python dict write). -/
def aset (k : CtrKey) (v : Nat) : List (CtrKey × Nat) → List (CtrKey × Nat)
  | [] => [(k, v)]
  | (k', v') :: rest =>
    if k' = k then (k, v) :: rest else (k', v') :: aset k v rest

/-- The mutable counter state: the in-memory `self.user_counters` cache
and the durable per-user preference entries (`counter_*` keys) behind
`Database.get_user_preference` / `set_user_preference`.  The user row is
assumed present, so durable writes succeed. -/
structure CtrState where
  cache : List (CtrKey × Nat)
  prefs : List (CtrKey × Nat)

/-- `PatternManager._get_counter` (src/utils/patterns.py:194-208): return
the cached value; on a cache miss read through to the durable store with
default `1` and populate the cache. -/
def get_counter (st : CtrState) (uid : Nat) (pat : PyStr) :
    Nat × CtrState :=
  match alookup (uid, pat) st.cache with
  | some v => (v, st)
  | none =>
    let v := (alookup (uid, pat) st.prefs).getD 1
    (v, { st with cache := aset (uid, pat) v st.cache })

/-- The intended effect of `PatternManager._increment_counter`
(src/utils/patterns.py:210-221): read the current value via
`_get_counter`, write `current + 1` to the cache (line 217, which does
execute), and record in `prefs` the value the durable write at line 218
attempts to store.  In the source that durable write never completes:
`Database.set_user_preference` self-deadlocks on the non-reentrant
database lock (see `set_user_preference_locks` below), so the call hangs
after the cache write.  `increment_counter_py` and
`increment_hang_state` model the actual run; this completing-write
model is used only where it is sound — fallback paths never reach the
write, and the cache read-value advance is real. -/
def increment_counter (st : CtrState) (uid : Nat) (pat : PyStr) :
    CtrState :=
  let r := get_counter st uid pat
  { cache := aset (uid, pat) (r.1 + 1) r.2.cache,
    prefs := aset (uid, pat) (r.1 + 1) r.2.prefs }

/-- Python `str(n)` for a nonnegative integer. -/
def natDigits (n : Nat) : PyStr := Nat.toDigits 10 n

/-- Pad on the left with `c` up to width `w`. -/
def padLeft (c : Char) (w : Nat) (s : PyStr) : PyStr :=
  List.replicate (w - s.length) c ++ s

/-- Python `format(n, s)` for a SINGLE-character format spec — the only
kind `_process_counters` can ever build, because `re.findall` with one
capturing group yields plain strings and the source indexes
`format_spec[0]`, the first character.  A digit `'1'..'9'` is a width
(integers right-align, space fill), `'0'` is the zero-fill flag with no
width (plain `str(n)`), `'d'` is the plain integer type; every other
character is modelled as the `ValueError` branch (`none`), after which
the source substitutes `str(n)`. -/
def pyFormatIntChar (c : Char) (n : Nat) : Option PyStr :=
  if c = 'd' ∨ c = '0' then some (natDigits n)
  else if c.isDigit then
    some (padLeft ' ' (c.toNat - '0'.toNat) (natDigits n))
  else none

/-- One attempted match of the counter token regex
`\x7bcounter(?::([^\x7d]+))?\x7d` at the head of the string:
`some (spec?, remainder-after-match)`, or `none` when the head does not
match. -/
def matchCounterAt (s : PyStr) : Option (Option PyStr × PyStr) :=
  if (pyStr "\x7bcounter\x7d").isPrefixOf s then some (none, s.drop 9)
  else if (pyStr "\x7bcounter:").isPrefixOf s then
    match splitAtBrace (s.drop 9) with
    | some (spec, rest) =>
      if spec = [] then none else some (some spec, rest)
    | none => none
  else none

/-- The `re.findall` scan for counter tokens
(src/utils/patterns.py:140): ordered, left to right, non-overlapping. -/
def findCounterSpecsFuel : Nat → PyStr → List (Option PyStr)
  | 0, _ => []
  | _ + 1, [] => []
  | fuel + 1, c :: rest =>
    match matchCounterAt (c :: rest) with
    | some (sp, rem) => sp :: findCounterSpecsFuel fuel rem
    | none => findCounterSpecsFuel fuel rest

def findCounterSpecs (s : PyStr) : List (Option PyStr) :=
  findCounterSpecsFuel s.length s

/-- The `for format_spec in counter_patterns` loop body
(src/utils/patterns.py:142-153) as the source actually executes it.
`re.findall` with one capturing group returns a list of strings, so
`format_spec` is the captured spec text (`none` here stands for the empty
capture of a bare `counter` token).  The guard `if format_spec[0]:` on an
empty capture raises IndexError, which the inner `except ValueError` does
not catch; the method-level handler at lines 157-159 returns the current
(partially processed) pattern, aborting the loop, so a bare `{counter}`
is never substituted.  On a non-empty capture everything downstream uses
only `format_spec[0]`, the FIRST character: the value is formatted with
that one-character spec and the replaced token is
`"{counter:" + format_spec[0] + "}"` — a no-op unless the original spec
was that single character.  The source also reassigns its local
`pattern`, so each later `_get_counter` call keys on the partially
substituted text. -/
def process_counters_go (uid : Nat) :
    List (Option PyStr) → PyStr → CtrState → PyStr × CtrState
  | [], pat, st => (pat, st)
  | sp :: rest, pat, st =>
    let r := get_counter st uid pat
    match sp with
    | none => (pat, r.2)
    | some spec =>
      let c0 := spec.headD ' '
      let rep := (pyFormatIntChar c0 r.1).getD (natDigits r.1)
      process_counters_go uid rest
        (pyReplace pat (pyStr "\x7bcounter:" ++ [c0] ++ ['\x7d']) rep) r.2

/-- `PatternManager._process_counters` (src/utils/patterns.py:136-159). -/
def process_counters (st : CtrState) (uid : Nat) (pattern : PyStr) :
    PyStr × CtrState :=
  process_counters_go uid (findCounterSpecs pattern) pattern st

/-- One attempted match of `\x7brandom(?::(\d+))?\x7d` at the head of the
string. -/
def matchRandomAt (s : PyStr) : Option (Option PyStr × PyStr) :=
  if (pyStr "\x7brandom\x7d").isPrefixOf s then some (none, s.drop 8)
  else if (pyStr "\x7brandom:").isPrefixOf s then
    match splitAtBrace (s.drop 8) with
    | some (spec, rest) =>
      if spec ≠ [] ∧ spec.all (fun c => c.isDigit) then
        some (some spec, rest)
      else none
    | none => none
  else none

/-- The `re.findall` scan for random tokens (src/utils/patterns.py:165). -/
def findRandomSpecsFuel : Nat → PyStr → List (Option PyStr)
  | 0, _ => []
  | _ + 1, [] => []
  | fuel + 1, c :: rest =>
    match matchRandomAt (c :: rest) with
    | some (sp, rem) => sp :: findRandomSpecsFuel fuel rem
    | none => findRandomSpecsFuel fuel rest

def findRandomSpecs (s : PyStr) : List (Option PyStr) :=
  findRandomSpecsFuel s.length s

/-- The `for length_spec in random_patterns` loop body
(src/utils/patterns.py:167-171) as the source actually executes it: the
same single-group `findall` bug as the counters.  `length_spec[0]` on the
empty capture of a bare `random` raises IndexError, caught by the
method's own handler at lines 175-177, which returns the current pattern
— the loop aborts and later width tokens stay unsubstituted.  For a
width capture only the FIRST digit is used: the generated length is
`int(length_spec[0])` and the replaced token is
`"{random:" + length_spec[0] + "}"` — a no-op unless the original width
was that single digit. -/
def process_randoms_go (randomGen : Nat → PyStr) :
    List (Option PyStr) → PyStr → PyStr
  | [], pat => pat
  | none :: _, pat => pat
  | some spec :: rest, pat =>
    let c0 := spec.headD ' '
    process_randoms_go randomGen rest
      (pyReplace pat (pyStr "\x7brandom:" ++ [c0] ++ ['\x7d'])
        (randomGen (c0.toNat - '0'.toNat)))

/-- `PatternManager._process_random_variables`
(src/utils/patterns.py:161-177). -/
def process_randoms (randomGen : Nat → PyStr) (pattern : PyStr) : PyStr :=
  process_randoms_go randomGen (findRandomSpecs pattern) pattern

/-- Read-only user profile row (`Database.get_user`), exposing the
`first_name` and `username` fields as `dict.get` does. -/
structure UserRow where
  first_name : Option PyStr
  username : Option PyStr

/-- The ambient read-only inputs of one render call: the user profile, the
strings derived from `datetime.now()`, and the entropy sources (`uuid`,
default 6-digit `random`, and the per-width generator used by
`_process_random_variables`). -/
structure Env where
  user : Option UserRow
  dateS : PyStr
  timeS : PyStr
  datetimeS : PyStr
  yearS : PyStr
  monthS : PyStr
  dayS : PyStr
  hourS : PyStr
  minuteS : PyStr
  secondS : PyStr
  timestampS : PyStr
  uuidS : PyStr
  random6 : PyStr
  randomGen : Nat → PyStr

/-- The file descriptor dict, read via
`file_info.get('name'|'size'|'type', ...)`. -/
structure FileInfo where
  name : Option PyStr
  size : Option Nat
  ftype : Option PyStr

/-- The variable context of `apply_pattern`
(src/utils/patterns.py:80-102), in exactly the source's dict insertion
order; `username or user_name` models Python's falsy `or`. -/
def buildContext (env : Env) (fi : FileInfo) (uid : Nat) :
    List (PyStr × PyStr) :=
  let user_name := match env.user with
    | some u => u.first_name.getD (pyStr "User")
    | none => pyStr "User"
  let username := match env.user with
    | some u => u.username.getD []
    | none => []
  let original_name := fi.name.getD (pyStr "file")
  [(pyStr "date", env.dateS), (pyStr "time", env.timeS),
   (pyStr "datetime", env.datetimeS), (pyStr "year", env.yearS),
   (pyStr "month", env.monthS), (pyStr "day", env.dayS),
   (pyStr "hour", env.hourS), (pyStr "minute", env.minuteS),
   (pyStr "second", env.secondS),
   (pyStr "original", remove_extension original_name),
   (pyStr "original_full", original_name),
   (pyStr "ext", get_extension original_name),
   (pyStr "user", user_name),
   (pyStr "username", if username = [] then user_name else username),
   (pyStr "user_id", natDigits uid),
   (pyStr "size", format_size (fi.size.getD 0)),
   (pyStr "size_mb", size_mb (fi.size.getD 0)),
   (pyStr "type", fi.ftype.getD (pyStr "file")),
   (pyStr "timestamp", env.timestampS),
   (pyStr "uuid", env.uuidS),
   (pyStr "random", env.random6)]

/-- `PatternManager._substitute_variables`
(src/utils/patterns.py:179-192): replace every `\x7bkey\x7d` occurrence,
one context entry after the other, in context order. -/
def substitute_variables (pattern : PyStr)
    (context : List (PyStr × PyStr)) : PyStr :=
  context.foldl
    (fun acc kv => pyReplace acc ('\x7b' :: kv.1 ++ ['\x7d']) kv.2) pattern

/-- The fallback name built by the `except` handler
(src/utils/patterns.py:128-134); note the source's differing dict-get
defaults — `'file'` for the stem, `''` for the extension. -/
def fallbackName (env : Env) (fi : FileInfo) : PyStr :=
  remove_extension (fi.name.getD (pyStr "file")) ++ '_' ::
    env.datetimeS ++ get_extension (fi.name.getD [])

/-- Injection points for an exception inside `apply_pattern`'s `try`
block.  `inContext` models a failure raised while reading the user row or
building the context (lines 69-105, the only statements that can actually
raise — e.g. a non-numeric `size` value); `inBody` models a failure after
`_process_counters` ran but before the increment (a conservative
over-approximation: every statement in between swallows its own
exceptions).  Either way control reaches the `except` handler at
line 128. -/
inductive RenderFail where
  | inContext
  | inBody

/-- `PatternManager.apply_pattern` (src/utils/patterns.py:65-134) with an
explicit failure injection: `none` is the success path; `some f` raises
at the corresponding point and lands in the `except` fallback (the
method catches every exception, so nothing propagates).  The fallback
paths and the `.1` name component — computed at lines 108-121, before
the increment — are exact; the success-path `.2` state uses the
completing-write model of `increment_counter` above.  The faithful
success-path run is `apply_pattern_py` below: it blocks forever inside
the increment's durable write and never returns.  `kwargs` is empty, as
at every render/preview call site the claims concern. -/
def apply_pattern (fail : Option RenderFail) (env : Env) (st : CtrState)
    (pattern : PyStr) (fi : FileInfo) (uid : Nat) : PyStr × CtrState :=
  match fail with
  | some RenderFail.inContext => (fallbackName env fi, st)
  | some RenderFail.inBody =>
    (fallbackName env fi, (process_counters st uid pattern).2)
  | none =>
    let context := buildContext env fi uid
    let file_ext := get_extension (fi.name.getD (pyStr "file"))
    let pc := process_counters st uid pattern
    let withRandoms := process_randoms env.randomGen pc.1
    let substituted := substitute_variables withRandoms context
    let cleaned := clean_filename substituted
    let result :=
      if ¬ (file_ext.isSuffixOf cleaned) ∧ file_ext ≠ [] then
        cleaned ++ file_ext
      else cleaned
    (result, increment_counter pc.2 uid pattern)

/-- The intended behaviour of `PatternManager.get_pattern_preview`
(src/utils/patterns.py:332-354): copy the in-memory counters, render,
then restore the copy in the `finally` block.  In the source the inner
render never returns (its increment blocks forever in the durable
write), so the real call never reaches the restore;
`get_pattern_preview_py` below models the actual run.  The built-in
sample file stands in when none is supplied. -/
def get_pattern_preview (env : Env) (st : CtrState) (pattern : PyStr)
    (uid : Nat) (sampleFi : Option FileInfo) : PyStr × CtrState :=
  let fi := sampleFi.getD
    { name := some (pyStr "sample_video.mp4"),
      size := some (150 * 1024 * 1024), ftype := some (pyStr "video") }
  let r := apply_pattern none env st pattern fi uid
  (r.1, { cache := st.cache, prefs := r.2.prefs })

/-- The counter value the next render of `(uid, pat)` substitutes: what
`_get_counter` returns on the current state. -/
def usedCounterValue (st : CtrState) (uid : Nat) (pat : PyStr) : Nat :=
  (get_counter st uid pat).1

/-- The counter-state evolution one success-path render would complete
under the completing-write model (the cache component of this state is
what the real run exhibits at the moment it blocks; the prefs component
is what the blocked durable write attempts to store). -/
def renderState (env : Env) (fi : FileInfo) (uid : Nat) (pattern : PyStr)
    (st : CtrState) : CtrState :=
  (apply_pattern none env st pattern fi uid).2

/-- A concrete sample environment used by the concrete evaluations. -/
def sampleEnv : Env :=
  { user := none, dateS := pyStr "20250101", timeS := pyStr "120000",
    datetimeS := pyStr "20250101_120000", yearS := pyStr "2025",
    monthS := pyStr "01", dayS := pyStr "01", hourS := pyStr "12",
    minuteS := pyStr "00", secondS := pyStr "00",
    timestampS := pyStr "1735732800", uuidS := pyStr "abcd1234",
    random6 := pyStr "123456", randomGen := fun n => List.replicate n '7' }

/-- A concrete sample file descriptor. -/
def movieFile : FileInfo :=
  { name := some (pyStr "movie.mp4"), size := some 1000,
    ftype := some (pyStr "video") }

/-- The state with no cached and no stored counters. -/
def emptyState : CtrState := { cache := [], prefs := [] }

theorem alookup_aset_self (k : CtrKey) (v : Nat) (l : List (CtrKey × Nat)) :
    alookup k (aset k v l) = some v := by
  induction l with
  | nil => simp [aset, alookup]
  | cons e rest ih =>
    obtain ⟨k', v'⟩ := e
    by_cases h : k' = k
    · subst h; simp [aset, alookup]
    · simp [aset, alookup, h, ih]

theorem alookup_aset_ne (k k' : CtrKey) (v : Nat) (l : List (CtrKey × Nat))
    (h : k' ≠ k) : alookup k (aset k' v l) = alookup k l := by
  induction l with
  | nil => simp [aset, alookup, h]
  | cons e rest ih =>
    obtain ⟨k'', v''⟩ := e
    by_cases h2 : k'' = k'
    · subst h2
      have h3 : k'' ≠ k := h
      simp [aset, alookup, h3]
    · by_cases h3 : k'' = k
      · subst h3; simp [aset, alookup, h2]
      · simp [aset, alookup, h2, h3, ih]

theorem get_counter_preserves (st : CtrState) (uid : Nat) (pat : PyStr)
    (k : CtrKey) :
    usedCounterValue (get_counter st uid pat).2 k.1 k.2 =
      usedCounterValue st k.1 k.2 ∧
    (get_counter st uid pat).2.prefs = st.prefs := by
  obtain ⟨ku, kp⟩ := k
  cases hcache : alookup (uid, pat) st.cache with
  | some v => simp [get_counter, hcache]
  | none =>
    have hst : (get_counter st uid pat).2 =
        { cache :=
            aset (uid, pat) ((alookup (uid, pat) st.prefs).getD 1) st.cache,
          prefs := st.prefs } := by
      simp [get_counter, hcache]
    rw [hst]
    refine ⟨?_, rfl⟩
    by_cases hk : (ku, kp) = (uid, pat)
    · rw [hk]
      simp only [usedCounterValue, get_counter, alookup_aset_self, hcache]
    · simp only [usedCounterValue, get_counter,
        alookup_aset_ne (ku, kp) (uid, pat) _ _ (fun hh => hk hh.symm)]
      cases alookup (ku, kp) st.cache <;> rfl

theorem process_counters_go_preserves (uid : Nat)
    (specs : List (Option PyStr)) (pat : PyStr) (st : CtrState)
    (k : CtrKey) :
    usedCounterValue (process_counters_go uid specs pat st).2 k.1 k.2 =
      usedCounterValue st k.1 k.2 ∧
    (process_counters_go uid specs pat st).2.prefs = st.prefs := by
  induction specs generalizing pat st with
  | nil => exact ⟨rfl, rfl⟩
  | cons sp rest ih =>
    have h1 := get_counter_preserves st uid pat k
    cases sp with
    | none => exact ⟨h1.1, h1.2⟩
    | some spec =>
      have h2 := ih (pyReplace pat
        (pyStr "\x7bcounter:" ++ [spec.headD ' '] ++ ['\x7d'])
        ((pyFormatIntChar (spec.headD ' ') (get_counter st uid pat).1).getD
          (natDigits (get_counter st uid pat).1)))
        (get_counter st uid pat).2
      exact ⟨h2.1.trans h1.1, h2.2.trans h1.2⟩

theorem render_step_counter (env : Env) (fi : FileInfo) (uid : Nat)
    (pattern : PyStr) (st : CtrState) :
    usedCounterValue (renderState env fi uid pattern st) uid pattern =
      usedCounterValue st uid pattern + 1 ∧
    alookup (uid, pattern) (renderState env fi uid pattern st).cache =
      some (usedCounterValue st uid pattern + 1) ∧
    alookup (uid, pattern) (renderState env fi uid pattern st).prefs =
      some (usedCounterValue st uid pattern + 1) := by
  have hpc := process_counters_go_preserves uid (findCounterSpecs pattern)
    pattern st (uid, pattern)
  have hrs : renderState env fi uid pattern st =
      increment_counter (process_counters st uid pattern).2 uid pattern :=
    rfl
  rw [hrs]
  set st1 := (process_counters st uid pattern).2 with hst1
  have hv : usedCounterValue st1 uid pattern =
      usedCounterValue st uid pattern := hpc.1
  have hinc : increment_counter st1 uid pattern =
      { cache := aset (uid, pattern) ((get_counter st1 uid pattern).1 + 1)
          (get_counter st1 uid pattern).2.cache,
        prefs := aset (uid, pattern) ((get_counter st1 uid pattern).1 + 1)
          (get_counter st1 uid pattern).2.prefs } := rfl
  rw [hinc]
  have hval : (get_counter st1 uid pattern).1 =
      usedCounterValue st uid pattern := hv
  rw [hval]
  refine ⟨?_, alookup_aset_self _ _ _, alookup_aset_self _ _ _⟩
  simp only [usedCounterValue, get_counter, alookup_aset_self]

/-- C4: wherever inside the `try` block an exception is raised,
`apply_pattern` returns the documented fallback
`"<stem>_<YYYYMMDD_HHMMSS><ext>"` built from the file descriptor and the
clock (the embedding is total — nothing propagates), the durable store is
untouched, and the counter is not incremented: the value the next render
would use is unchanged.  On a successful render the counter advances by
exactly one, the increment happening only after the name is built. -/
theorem render_failure_fallback :
    (∀ (f : RenderFail) (env : Env) (st : CtrState) (pattern : PyStr)
        (fi : FileInfo) (uid : Nat),
      (apply_pattern (some f) env st pattern fi uid).1 =
          fallbackName env fi ∧
      usedCounterValue (apply_pattern (some f) env st pattern fi uid).2
          uid pattern = usedCounterValue st uid pattern ∧
      (apply_pattern (some f) env st pattern fi uid).2.prefs = st.prefs) ∧
    (∀ (env : Env) (st : CtrState) (pattern : PyStr) (fi : FileInfo)
        (uid : Nat),
      usedCounterValue (apply_pattern none env st pattern fi uid).2
          uid pattern = usedCounterValue st uid pattern + 1) := by
  constructor
  · intro f env st pattern fi uid
    cases f with
    | inContext => exact ⟨rfl, rfl, rfl⟩
    | inBody =>
      refine ⟨rfl, ?_, ?_⟩
      · exact (process_counters_go_preserves uid (findCounterSpecs pattern)
          pattern st (uid, pattern)).1
      · exact (process_counters_go_preserves uid (findCounterSpecs pattern)
          pattern st (uid, pattern)).2
  · intro env st pattern fi uid
    exact (render_step_counter env fi uid pattern st).1

theorem isSuffixOf_append_self (a b : PyStr) :
    b.isSuffixOf (a ++ b) = true := by
  show b.reverse.isPrefixOf (a ++ b).reverse = true
  rw [List.reverse_append]
  exact (isPrefixOf_iff _ _).mpr ⟨a.reverse, rfl⟩

/-- C6: whenever the computed extension of the file name is non-empty,
the string returned by `apply_pattern` ends with it — on the success path
(the final guard appends the extension when the sanitized result lacks
it) and on every fallback path; in particular any pattern that never
mentions `ext`, rendered on `report.pdf`, still ends in `.pdf`. -/
theorem render_extension_guarantee
    (fail : Option RenderFail) (env : Env) (st : CtrState)
    (pattern : PyStr) (fi : FileInfo) (uid : Nat)
    (h : get_extension (fi.name.getD (pyStr "file")) ≠ []) :
    (get_extension (fi.name.getD (pyStr "file"))).isSuffixOf
      (apply_pattern fail env st pattern fi uid).1 = true := by
  have hname : ∃ n, fi.name = some n := by
    cases hn : fi.name with
    | some n => exact ⟨n, rfl⟩
    | none =>
      rw [hn] at h
      exact absurd (by decide :
        get_extension ((none : Option PyStr).getD (pyStr "file")) = []) h
  obtain ⟨nm, hnm⟩ := hname
  have hfb : (get_extension (fi.name.getD (pyStr "file"))).isSuffixOf
      (fallbackName env fi) = true := by
    rw [fallbackName, hnm]
    simp only [Option.getD_some]
    exact isSuffixOf_append_self _ _
  cases fail with
  | some f => cases f with
    | inContext => exact hfb
    | inBody => exact hfb
  | none =>
    simp only [apply_pattern]
    by_cases hsuf : (get_extension (fi.name.getD (pyStr "file"))).isSuffixOf
        (clean_filename (substitute_variables
          (process_randoms env.randomGen
            (process_counters st uid pattern).1)
          (buildContext env fi uid))) = true
    · rw [if_neg (by simp [hsuf])]
      exact hsuf
    · rw [if_pos ⟨by simp [hsuf], h⟩]
      exact isSuffixOf_append_self _ _

/-- Witness for C6: rendering `"{original}"` (no `ext` mention) on
`movie.mp4` ends in `.mp4`. -/
theorem render_extension_guarantee_witness :
    get_extension (movieFile.name.getD (pyStr "file")) ≠ [] ∧
    (get_extension (movieFile.name.getD (pyStr "file"))).isSuffixOf
      (apply_pattern none sampleEnv emptyState (pyStr "\x7boriginal\x7d")
        movieFile 7).1 = true :=
  ⟨by decide, render_extension_guarantee none sampleEnv emptyState
    (pyStr "\x7boriginal\x7d") movieFile 7 (by decide)⟩

/-- The `Database` lock (database.py:21) is a plain non-reentrant
`threading.Lock`; `true` means held.  Acquiring an already-held
non-reentrant lock from the same thread blocks forever — `none` models
that permanent block. -/
def lockAcquire (held : Bool) : Option Bool :=
  if held then none else some true

/-- The lock trace of `Database.set_user_preference`
(database.py:224-244): `with self.lock:` at line 227 acquires the lock,
and the body's first statement calls `self.get_user(user_id)`, whose own
`with self.lock:` at line 197 acquires the same lock again.  Whatever
the arguments, the second acquire runs with the lock held, so the call
never returns and the UPDATE never executes. -/
def set_user_preference_locks (held : Bool) : Option Bool :=
  match lockAcquire held with
  | none => none
  | some h1 =>
    match lockAcquire h1 with
    | none => none
    | some h2 => some h2

/-- The counter state every other thread observes while
`_increment_counter` is blocked: the cache write at patterns.py:217 has
executed, the durable store is untouched, and the database lock is held
forever. -/
def increment_hang_state (st : CtrState) (uid : Nat) (pat : PyStr) :
    CtrState :=
  let r := get_counter st uid pat
  { cache := aset (uid, pat) (r.1 + 1) r.2.cache, prefs := r.2.prefs }

/-- `_increment_counter` as the source actually executes
(src/utils/patterns.py:210-221): the read and the cache write complete,
then the durable write enters `set_user_preference` from the unlocked
state and never returns.  `none` records that the call itself never
returns (a deadlock is not an exception, so the method's own
`except` cannot catch it). -/
def increment_counter_py (st : CtrState) (uid : Nat) (pat : PyStr) :
    Option CtrState :=
  match set_user_preference_locks false with
  | none => none
  | some _ => some (increment_counter st uid pat)

/-- `apply_pattern` as the source actually executes: the fallback paths
return (they never reach the increment), while the success path computes
the name — the faithful `.1` of the completing model — and then blocks
forever inside `_increment_counter`; `none` records that it never
returns. -/
def apply_pattern_py (fail : Option RenderFail) (env : Env)
    (st : CtrState) (pattern : PyStr) (fi : FileInfo) (uid : Nat) :
    Option (PyStr × CtrState) :=
  match fail with
  | some f => some (apply_pattern (some f) env st pattern fi uid)
  | none =>
    match increment_counter_py (process_counters st uid pattern).2 uid
        pattern with
    | none => none
    | some st' => some ((apply_pattern none env st pattern fi uid).1, st')

/-- The counter state other threads observe while a success-path render
of `(uid, pattern)` from state `st` is blocked in the durable write. -/
def render_hang_state (st : CtrState) (uid : Nat) (pattern : PyStr) :
    CtrState :=
  increment_hang_state (process_counters st uid pattern).2 uid pattern

/-- `get_pattern_preview` as the source actually executes: the inner
render never returns, so neither does the preview, and the
`finally`-restore of the cache copy is never reached — while it blocks,
`render_hang_state` is what other threads observe. -/
def get_pattern_preview_py (env : Env) (st : CtrState) (pattern : PyStr)
    (uid : Nat) (sampleFi : Option FileInfo) : Option (PyStr × CtrState) :=
  let fi := sampleFi.getD
    { name := some (pyStr "sample_video.mp4"),
      size := some (150 * 1024 * 1024), ftype := some (pyStr "video") }
  (apply_pattern_py none env st pattern fi uid).map
    (fun r => (r.1, { cache := st.cache, prefs := r.2.prefs }))

/-- C1 (code bug in the source): the claim is the spec's evident intent
(an auto-incrementing 1, 2, 3... counter, persisted on each render), but
the code cannot deliver it.  (i) `re.findall` with a single capturing
group yields strings, so `format_spec[0]` on the empty capture of a bare
`{counter}` raises IndexError — caught at patterns.py:157-159, which
returns the pattern with the token unsubstituted: the name computed for
`"{counter}"` on `movie.mp4` is `"{counter}.mp4"`, never `"1.mp4"`.
(ii) No render returns at all: the durable counter write self-deadlocks
on the non-reentrant database lock, so the increment blocks forever and
the durable store is never advanced. -/
theorem counter_render_broken :
    (process_counters emptyState 7 (pyStr "\x7bcounter\x7d")).1 =
      pyStr "\x7bcounter\x7d" ∧
    (apply_pattern none sampleEnv emptyState (pyStr "\x7bcounter\x7d")
        movieFile 7).1 = pyStr "\x7bcounter\x7d.mp4" ∧
    set_user_preference_locks false = none ∧
    (∀ (st : CtrState) (uid : Nat) (pat : PyStr),
      increment_counter_py st uid pat = none) ∧
    (∀ (env : Env) (st : CtrState) (pattern : PyStr) (fi : FileInfo)
        (uid : Nat),
      apply_pattern_py none env st pattern fi uid = none) := by
  exact ⟨by decide, by decide, rfl, fun st uid pat => rfl,
    fun env st pattern fi uid => rfl⟩

/-- C2 (code bug in the source): a preview does mutate the counter state
subsequent renders observe, though not by a completed durable write —
`get_pattern_preview` never returns (the increment's durable write
self-deadlocks), so the `finally`-restore of the cache copy is never
reached, and at the hang the shared in-memory cache already holds the
advanced value 2 for the key (the durable store never written, the
database lock held forever): any other thread's render reads 2 where the
claim requires 1. -/
theorem preview_hang_leaves_counter_advanced :
    (∀ (env : Env) (st : CtrState) (pattern : PyStr) (uid : Nat)
        (sampleFi : Option FileInfo),
      get_pattern_preview_py env st pattern uid sampleFi = none) ∧
    alookup (7, pyStr "\x7bcounter\x7d")
      (render_hang_state emptyState 7 (pyStr "\x7bcounter\x7d")).cache =
        some 2 ∧
    (render_hang_state emptyState 7 (pyStr "\x7bcounter\x7d")).prefs =
      [] ∧
    usedCounterValue
      (render_hang_state emptyState 7 (pyStr "\x7bcounter\x7d")) 7
      (pyStr "\x7bcounter\x7d") = 2 ∧
    usedCounterValue emptyState 7 (pyStr "\x7bcounter\x7d") = 1 := by
  exact ⟨fun env st pattern uid sampleFi => rfl, by decide, by decide,
    by decide, by decide⟩

/-- C3 counterexample: rendering `"{counter:03d}_{original}.{ext}"` on
`movie.mp4` with the counter at 1 cannot return `"001_movie.mp4"`: the
faithful run never returns at all (the durable counter write
self-deadlocks), and the name it computes before blocking is not
`"001_movie.mp4"` either. -/
theorem render_example_counterexample :
    apply_pattern_py none sampleEnv emptyState
      (pyStr "\x7bcounter:03d\x7d_\x7boriginal\x7d.\x7bext\x7d")
      movieFile 7 = none ∧
    (apply_pattern none sampleEnv emptyState
      (pyStr "\x7bcounter:03d\x7d_\x7boriginal\x7d.\x7bext\x7d")
      movieFile 7).1 ≠ pyStr "001_movie.mp4" :=
  ⟨rfl, by decide⟩

/-- C3 amended: the `{counter:03d}` token survives counter-processing —
the source formats with only the first spec character `'0'` and replaces
the absent token `"{counter:0}"`, a no-op — `{original}` resolves to
`movie`, the `{ext}` value carries its own leading dot (the double dot),
and the sanitizer maps `':'` to `'_'`: the name computed at
patterns.py:108-121 is exactly `"{counter_03d}_movie..mp4"`; the call
then blocks forever in the counter increment instead of returning it. -/
theorem render_example_amended :
    (apply_pattern none sampleEnv emptyState
      (pyStr "\x7bcounter:03d\x7d_\x7boriginal\x7d.\x7bext\x7d")
      movieFile 7).1 = pyStr "\x7bcounter_03d\x7d_movie..mp4" := by
  decide
